import Mathlib

/-
  Shallow embedding of the Lease & Refresh Orchestration Engine of
  `web_outlook_app.py` (account leasing, token-refresh orchestration,
  scheduler lock, secret codec), together with theorems checking the
  specification's claims against it.

  Python strings are modelled as `List Char`; machine integers and
  timestamps as `Int` (Python ints are unbounded); `datetime` values as
  integer second counts; fallible operations return `Option`/`Except`.
-/

namespace Outlook

/-- Python strings, modelled as lists of unicode characters. -/
abbrev PStr := List Char

/-- Coerce a Lean string literal to the `List Char` model of Python strings. -/
def pstr (s : String) : PStr := s.data

/-- Substring test: `containsSub text kw = true` iff `kw` occurs contiguously
inside `text` (Python's `kw in text`). -/
def containsSub (text kw : PStr) : Bool :=
  match text with
  | [] => kw.isPrefixOf []
  | c :: t => kw.isPrefixOf (c :: t) || containsSub t kw

/-- Python `str.lower`, character by character. -/
def lowerStr (s : PStr) : PStr := s.map Char.toLower

/- ==================== Secret codec (`encrypt_data` / `decrypt_data`) ==================== -/

/-- The underlying Fernet cipher, abstracted: the repository delegates the raw
encryption to the external `cryptography` library, so it enters the model as a
pair of functions; `dec` returns `none` where the library raises. -/
structure Cipher where
  enc : PStr → PStr
  dec : PStr → Option PStr

/-- The `'enc:'` marker prefixed to every encrypted value. -/
def encPrefix : PStr := pstr "enc:"

/-- `encrypt_data`: empty input returned as is; an already-marked value
returned unchanged; otherwise encrypt and prepend the `'enc:'` marker. -/
def encrypt_data (c : Cipher) (data : PStr) : PStr :=
  if data = [] then data
  else if encPrefix.isPrefixOf data then data
  else encPrefix ++ c.enc data

/-- `decrypt_data`: empty input returned as is; input without the `'enc:'`
marker returned unchanged (plaintext backward compatibility); otherwise strip
the 4-character marker and decrypt. `none` models the `RuntimeError` raised
when the cipher rejects the payload. -/
def decrypt_data (c : Cipher) (encryptedData : PStr) : Option PStr :=
  if encryptedData = [] then some encryptedData
  else if ¬ encPrefix.isPrefixOf encryptedData then some encryptedData
  else c.dec (encryptedData.drop 4)

/- ==================== Throttle classification (`_is_throttle_error`) ==================== -/

/-- The keyword list of `_is_throttle_error`, verbatim from the source. -/
def throttleKeywords : List PStr :=
  [ pstr "too many requests"
  , pstr "temporarily_unavailable"
  , pstr "throttle"
  , pstr "rate limit"
  , pstr "429"
  , pstr "retry-after" ]

/-- `_is_throttle_error`: a missing or empty message is not throttled;
otherwise the lowercased text is scanned for any of the keywords. -/
def is_throttle_error (errorMsg : Option PStr) : Bool :=
  match errorMsg with
  | none => false
  | some m =>
    if m = [] then false
    else throttleKeywords.any (fun k => containsSub (lowerStr m) k)

/- ==================== Scheduler lock (`try_acquire_scheduler_lock`) ==================== -/

/-- `SCHEDULER_LOCK_TTL_SECONDS` (default environment value). -/
def SCHEDULER_LOCK_TTL_SECONDS : Int := 120

/-- The stored scheduler-lock record after JSON parsing: owner instance id and
the parsed heartbeat timestamp (`none` models a missing or unparseable
`updated_at`, which the code treats as absent). -/
structure SchedulerLock where
  owner : String
  updatedAt : Option Int
deriving DecidableEq

/-- `try_acquire_scheduler_lock` as one atomic read-check-write step on the
stored lock (the source wraps it in `BEGIN IMMEDIATE`): fails only when a lock
is stored, its heartbeat parses, is younger than the TTL, and belongs to a
different owner; in every other case the caller's lock is written. Returns
(acquired?, stored lock afterwards). -/
def try_acquire_scheduler_lock (stored : Option SchedulerLock) (now : Int)
    (selfId : String) : Bool × Option SchedulerLock :=
  match stored with
  | some lock =>
    match lock.updatedAt with
    | some u =>
      if now - u < SCHEDULER_LOCK_TTL_SECONDS ∧ lock.owner ≠ selfId then
        (false, some lock)
      else
        (true, some ⟨selfId, some now⟩)
    | none => (true, some ⟨selfId, some now⟩)
  | none => (true, some ⟨selfId, some now⟩)

/- ==================== Refresh configuration (`_resolve_refresh_config`) ==================== -/

/-- Resolved refresh configuration. -/
structure RefreshConfig where
  delay_seconds : Int
  max_workers : Int
  batch_size : Int
deriving DecidableEq

/-- `_resolve_refresh_config`: the requested settings (arbitrary stored
integers) are clamped into safe bounds, adjusted per mode and candidate-set
size, then shrunk to the candidate count with batch size kept at or above the
worker count. -/
def resolve_refresh_config (delayReq workersReq batchReq : Int) (total : Int)
    (mode : String) : RefreshConfig :=
  let delay0 := max 0 (min delayReq 60)
  let workers0 := max 1 (min workersReq 20)
  let batch0 := max 1 (min batchReq 100)
  let workers1 :=
    if mode = "full" then min workers0 6
    else if total ≥ 2000 then max workers0 14
    else if total ≥ 1000 then max workers0 12
    else if total ≥ 500 then max workers0 10
    else workers0
  let batch1 :=
    if mode = "full" then min batch0 30
    else if total ≥ 2000 then max batch0 100
    else if total ≥ 1000 then max batch0 80
    else if total ≥ 500 then max batch0 60
    else batch0
  let delay1 :=
    if mode = "full" then max delay0 2
    else if total ≥ 2000 then min delay0 1
    else if total ≥ 1000 then min delay0 2
    else if total ≥ 500 then min delay0 3
    else delay0
  if total > 0 then
    let workers2 := if total < workers1 then max 1 total else workers1
    let batch2 := if total < batch1 then max 1 total else batch1
    let batch3 := if batch2 < workers2 then workers2 else batch2
    ⟨delay1, workers2, batch3⟩
  else
    ⟨delay1, workers1, batch1⟩

/- ==================== Resume checkpoint (`_get_resume_state`) ==================== -/

/-- `REFRESH_RESUME_TTL_SECONDS` (6 hours). -/
def REFRESH_RESUME_TTL_SECONDS : Int := 21600

/-- A stored resume checkpoint after JSON parsing. `updatedAt` distinguishes a
missing/empty timestamp (`none`, accepted without freshness check), an
unparseable one (`some none`, rejected), and a parsed one (`some (some u)`). -/
structure ResumeState where
  status : String
  lastId : Option Int
  updatedAt : Option (Option Int)
deriving DecidableEq

/-- `_get_resume_state`: the stored checkpoint (`none` models a missing key or
JSON parse failure) is returned only if its status is `running` and its
`updated_at`, when present and parseable, is at most the staleness TTL old. -/
def get_resume_state (stored : Option ResumeState) (now : Int) :
    Option ResumeState :=
  match stored with
  | none => none
  | some st =>
    if st.status ≠ "running" then none
    else
      match st.updatedAt with
      | none => some st
      | some none => none
      | some (some u) =>
        if now - u > REFRESH_RESUME_TTL_SECONDS then none else some st

/-- The resume gate at the top of `_refresh_accounts_generator`: the id to
resume after, provided resume is requested, a fresh running checkpoint exists
and its `last_id` is truthy (present and nonzero). -/
def resume_start_from (stored : Option ResumeState) (now : Int)
    (resume : Bool) : Option Int :=
  match (if resume then get_resume_state stored now else none) with
  | some st =>
    match st.lastId with
    | some l => if l ≠ 0 then some l else none
    | none => none
  | none => none

/- ==================== Lease manager (external checkout API) ==================== -/

/-- An account row, restricted to the columns the checkout query touches. -/
structure LAccount where
  id : Int
  email : String
  groupId : Option Int
  status : String
deriving DecidableEq

/-- A row of the `account_leases` table. -/
structure Lease where
  leaseId : String
  accountId : Int
  owner : Option String
  expiresAt : Int
deriving DecidableEq

/-- The slice of the durable store the lease manager reads and writes. -/
structure LeaseStore where
  accounts : List LAccount
  leases : List Lease
deriving DecidableEq

/-- TTL clamping in `api_external_checkout_account`:
`ttl_seconds = max(60, min(ttl_seconds, 3600))`. -/
def clampTtl (ttl : Int) : Int := max 60 (min ttl 3600)

/-- The expired-lease sweep:
`DELETE FROM account_leases WHERE expires_at <= CURRENT_TIMESTAMP`. -/
def sweepExpired (leases : List Lease) (now : Int) : List Lease :=
  leases.filter (fun l => now < l.expiresAt)

/-- The optional group filter: applied only when `group_id` is truthy
(present and nonzero), per the `if group_id:` guard in the source. -/
def groupMatches (gid : Option Int) (a : LAccount) : Bool :=
  match gid with
  | some g => if g ≠ 0 then a.groupId = some g else true
  | none => true

/-- Does any lease row (of the given list) cover this account id? -/
def hasLease (leases : List Lease) (aid : Int) : Bool :=
  leases.any (fun l => l.accountId = aid)

/-- The candidate set of the checkout query: active accounts matching the
group filter with no lease row surviving the sweep. -/
def eligibleAccounts (s : LeaseStore) (gid : Option Int) (now : Int) :
    List LAccount :=
  s.accounts.filter (fun a =>
    a.status = "active" && groupMatches gid a &&
      !(hasLease (sweepExpired s.leases now) a.id))

/-- `ORDER BY a.id ASC LIMIT 1`: the minimum-id element of a list of account
rows (`none` on the empty list). -/
def pickMinId : List LAccount → Option LAccount
  | [] => none
  | a :: rest =>
    match pickMinId rest with
    | none => some a
    | some b => if a.id ≤ b.id then some a else some b

/-- Outcome of `api_external_checkout_account`. -/
inductive CheckoutResult where
  | success (leaseId : String) (accountId : Int) (email : String)
      (expiresAt : Int)
  | noAvailable
deriving DecidableEq

/-- `api_external_checkout_account` as one atomic state transition (the source
wraps sweep, selection and insertion in a single `BEGIN IMMEDIATE`
transaction): sweep expired leases, pick the lowest-id eligible account, and
insert a lease for it expiring `now + clampTtl ttlReq`. -/
def checkout (s : LeaseStore) (gid : Option Int) (owner : Option String)
    (ttlReq : Int) (now : Int) (newLeaseId : String) :
    CheckoutResult × LeaseStore :=
  let ttl := clampTtl ttlReq
  let live := sweepExpired s.leases now
  match pickMinId (eligibleAccounts s gid now) with
  | none => (.noAvailable, { s with leases := live })
  | some a =>
    (.success newLeaseId a.id a.email (now + ttl),
     { s with leases := live ++ [⟨newLeaseId, a.id, owner, now + ttl⟩] })

/-- Outcome of `api_external_checkout_complete`. -/
inductive CompleteResult where
  | ok
  | notFound
deriving DecidableEq

/-- `api_external_checkout_complete`: look the lease up by id alone (no expiry
check) and delete it when found; a missing row reports not-found. -/
def checkout_complete (s : LeaseStore) (leaseId : String) :
    CompleteResult × LeaseStore :=
  if s.leases.any (fun l => l.leaseId = leaseId) then
    (.ok, { s with leases := s.leases.filter (fun l => ¬ l.leaseId = leaseId) })
  else
    (.notFound, s)

/-- The per-account lease-uniqueness invariant of the `account_leases` table
(`account_id INTEGER UNIQUE`). -/
def atMostOneLeasePerAccount (leases : List Lease) : Prop :=
  ∀ aid : Int, (leases.filter (fun l => l.accountId = aid)).length ≤ 1

/- ==================== Refresh orchestrator (`_refresh_accounts_generator`) ==================== -/

/-- `REFRESH_BACKOFF_MAX` (default environment value, 10.0 seconds; the delay
arithmetic is integral, so it is modelled as 10). -/
def REFRESH_BACKOFF_MAX : Int := 10

/-- The inter-batch delay adaptation at the end of each batch: with at least
one throttle hit the delay becomes
`min(REFRESH_BACKOFF_MAX, max(current, 1) + min(3, hits))`; with none and the
current delay above the baseline it steps down by one, floored at the
baseline; otherwise it is unchanged. -/
def adapt_delay (currentDelay baseline : Int) (throttleHits : Nat) : Int :=
  if throttleHits > 0 then
    min REFRESH_BACKOFF_MAX (max currentDelay 1 + min 3 (throttleHits : Int))
  else if currentDelay > baseline then
    max baseline (currentDelay - 1)
  else
    currentDelay

/-- An account row, restricted to the columns the refresh worker uses
(credential material is abstracted into the worker outcome oracle below). -/
structure RAccount where
  id : Int
  email : String
deriving DecidableEq

/-- The skip filter of `_refresh_accounts_generator`: with a truthy
`start_from_id`, only accounts with a strictly larger id are kept. -/
def apply_resume_skip (accounts : List RAccount) (startFrom : Option Int) :
    List RAccount :=
  match startFrom with
  | some l => accounts.filter (fun a => l < a.id)
  | none => accounts

/-- What happens inside one worker call, abstracting the external token
endpoint and the secret codec: a completed validation, a decryption failure of
the stored refresh token (raised by `decrypt_data` and caught inside
`_refresh_account_worker`), or any other exception escaping the worker (seen
by the generator as `future.result()` raising). -/
inductive WorkerOutcome where
  | validated (success : Bool) (error : Option String)
  | decryptFail (msg : String)
  | raised (msg : String)
deriving DecidableEq

/-- The result dictionary a worker hands back to the generator. -/
structure WorkerResult where
  id : Int
  email : String
  success : Bool
  error : Option String
deriving DecidableEq

/-- `_refresh_account_worker`: a decryption failure is caught inside the
worker and converted to a failed result carrying the error text; any other
exception propagates out of the worker (`Except.error`). -/
def refresh_account_worker (acc : RAccount) (b : WorkerOutcome) :
    Except String WorkerResult :=
  match b with
  | .decryptFail m => .ok ⟨acc.id, acc.email, false, some ("解密 token 失败: " ++ m)⟩
  | .validated ok err => .ok ⟨acc.id, acc.email, ok, err⟩
  | .raised m => .error m

/-- The `future.result()` guard in the generator's drain loop: an exception
escaping a worker is caught there and converted to a failed result for that
single account. -/
def collect_future_result (acc : RAccount) (b : WorkerOutcome) : WorkerResult :=
  match refresh_account_worker acc b with
  | .ok r => r
  | .error m => ⟨acc.id, acc.email, false, some ("刷新异常: " ++ m)⟩

/-- A row of `account_refresh_logs`, as written in the drain loop. -/
structure RefreshLogEntry where
  accountId : Int
  accountEmail : String
  refreshType : String
  status : String
  errorMessage : Option String
deriving DecidableEq

/-- The progress events the generator yields. Wall-clock payload fields
(elapsed seconds, rate, ETA, run id) are omitted from the model; the
structural fields the claims speak about are kept. -/
inductive RefreshEvent where
  | start (total totalAll : Nat) (delaySeconds : Int) (batchSize : Nat)
      (resumed : Bool) (skipped : Nat)
  | progress (email : String) (current total successCount failedCount : Nat)
  | delay (seconds : Int)
  | complete (total successCount failedCount : Nat)
      (failedList : List WorkerResult)
deriving DecidableEq

/-- The mutable counters of one run of the generator loop. -/
structure RunState where
  successCount : Nat
  failedCount : Nat
  failedList : List WorkerResult
  processed : Nat
  currentDelay : Int
  lastId : Int
deriving DecidableEq

/-- The log row written for one worker result. -/
def log_of_result (refreshType : String) (r : WorkerResult) : RefreshLogEntry :=
  ⟨r.id, r.email, refreshType, if r.success then "success" else "failed", r.error⟩

/-- The log row an account with the given worker outcome ends up with. -/
def worker_log (refreshType : String) (behave : RAccount → WorkerOutcome)
    (a : RAccount) : RefreshLogEntry :=
  log_of_result refreshType (collect_future_result a (behave a))

/-- The drain loop over one batch (`as_completed` returns results in
completion order; the claims proved below are order-insensitive, and the
model fixes submission order): each account's result is logged, counted, and
reported as a `progress` event; throttle-shaped failures are tallied. Returns
(logs, events, state, throttle hits). -/
def process_batch (refreshType : String) (total : Nat)
    (behave : RAccount → WorkerOutcome) :
    List RAccount → RunState →
      List RefreshLogEntry × List RefreshEvent × RunState × Nat
  | [], st => ([], [], st, 0)
  | acc :: rest, st =>
    let r := collect_future_result acc (behave acc)
    let st' : RunState :=
      if r.success then
        { st with successCount := st.successCount + 1,
                  processed := st.processed + 1 }
      else
        { st with failedCount := st.failedCount + 1,
                  failedList := st.failedList ++ [r],
                  processed := st.processed + 1 }
    let hit : Nat :=
      if !r.success && is_throttle_error (r.error.map pstr) then 1 else 0
    let ev := RefreshEvent.progress r.email st'.processed total
      st'.successCount st'.failedCount
    let tail := process_batch refreshType total behave rest st'
    (log_of_result refreshType r :: tail.1, ev :: tail.2.1, tail.2.2.1,
     hit + tail.2.2.2)

/-- The batched main loop of `_refresh_accounts_generator`: slice the next
`batchSize` accounts, drain them, record the batch checkpoint (`last_id` =
last id of the batch), adapt the inter-batch delay, and emit a `delay` event
when more batches remain and the delay is positive. -/
def run_refresh_loop (refreshType : String) (batchSize : Nat) (baseline : Int)
    (total : Nat) (behave : RAccount → WorkerOutcome) :
    List RAccount → RunState →
      List RefreshEvent × List RefreshLogEntry × RunState
  | [], st => ([], [], st)
  | acc :: more, st =>
    let bs := max 1 batchSize
    let batch := (acc :: more).take bs
    let rest := (acc :: more).drop bs
    let pb := process_batch refreshType total behave batch st
    let st' := pb.2.2.1
    let newDelay := adapt_delay st'.currentDelay baseline pb.2.2.2
    let st'' : RunState :=
      { st' with currentDelay := newDelay,
                 lastId := ((batch.getLast? ).getD acc).id }
    let evs' :=
      if newDelay > 0 ∧ rest ≠ [] then
        pb.2.1 ++ [RefreshEvent.delay newDelay]
      else pb.2.1
    let tail :=
      run_refresh_loop refreshType batchSize baseline total behave rest st''
    (evs' ++ tail.1, pb.1 ++ tail.2.1, tail.2.2)
termination_by xs _ => xs.length
decreasing_by
  simp only [List.length_drop]
  have h1 : 1 ≤ max 1 batchSize := Nat.le_max_left _ _
  simp only [List.length_cons]
  omega

/-- `_refresh_accounts_generator` end to end, over a worker-outcome oracle:
resolve the resume skip, emit the `start` event, short-circuit the
zero-candidate case straight to `complete`, and otherwise run the batched loop
and terminate with the `complete` event carrying the failure list. Returns
(event stream, refresh log rows). -/
def refresh_accounts_generator (stored : Option ResumeState) (resume : Bool)
    (accounts0 : List RAccount) (behave : RAccount → WorkerOutcome)
    (refreshType : String) (delaySeconds : Int) (batchSize : Nat)
    (now : Int) : List RefreshEvent × List RefreshLogEntry :=
  let totalAll := accounts0.length
  let startFrom := resume_start_from stored now resume
  let accounts := apply_resume_skip accounts0 startFrom
  let total := accounts.length
  let skipped := totalAll - total
  let startEv := RefreshEvent.start total totalAll delaySeconds batchSize
    startFrom.isSome skipped
  if total = 0 then
    ([startEv, RefreshEvent.complete 0 0 0 []], [])
  else
    let st0 : RunState := ⟨0, 0, [], 0, delaySeconds, 0⟩
    let run :=
      run_refresh_loop refreshType batchSize delaySeconds total behave
        accounts st0
    ((startEv :: run.1) ++
      [RefreshEvent.complete total run.2.2.successCount run.2.2.failedCount
        run.2.2.failedList],
     run.2.1)

/- ==================== Helper lemmas ==================== -/

theorem containsSub_iff_infix (t kw : PStr) :
    containsSub t kw = true ↔ kw <:+: t := by
  induction t with
  | nil =>
    simp [containsSub, List.isPrefixOf_iff_prefix]
  | cons c t ih =>
    simp [containsSub, List.isPrefixOf_iff_prefix, ih, List.infix_cons_iff]

/- ==================== C10: secret codec round trip ==================== -/

/-- C10: the prefix dispatch of the secret codec round-trips: for a non-empty
value without the `'enc:'` marker, decrypting its encryption recovers it;
encryption of an already-marked value is the identity; and decryption of a
non-empty unmarked value returns it unchanged. -/
theorem C10_secret_codec_roundtrip (c : Cipher)
    (hc : ∀ x, c.dec (c.enc x) = some x) :
    (∀ s : PStr, s ≠ [] → encPrefix.isPrefixOf s = false →
        decrypt_data c (encrypt_data c s) = some s)
    ∧ (∀ t : PStr, encPrefix.isPrefixOf t = true → encrypt_data c t = t)
    ∧ (∀ t : PStr, t ≠ [] → encPrefix.isPrefixOf t = false →
        decrypt_data c t = some t) := by
  refine ⟨?_, ?_, ?_⟩
  · intro s hne hpre
    have he : encrypt_data c s = encPrefix ++ c.enc s := by
      simp [encrypt_data, hne, hpre]
    have hne2 : encPrefix ++ c.enc s ≠ [] := by
      simp [encPrefix, pstr]
    have hpre2 : encPrefix.isPrefixOf (encPrefix ++ c.enc s) = true := by
      simp [List.isPrefixOf_iff_prefix]
    have hdrop : (encPrefix ++ c.enc s).drop 4 = c.enc s := by
      have h4 : (4 : Nat) = encPrefix.length := rfl
      rw [h4, List.drop_left]
    rw [he]
    simp [decrypt_data, hne2, hpre2, hdrop, hc]
  · intro t hpre
    by_cases h : t = [] <;> simp [encrypt_data, h, hpre]
  · intro t hne hpre
    simp [decrypt_data, hne, hpre]

/-- C10 witness: a concrete cipher (tagging with one character, inverted by
stripping it) run through the codec on a concrete plaintext. -/
def tagCipher : Cipher :=
  ⟨fun x => 'x' :: x,
   fun x => match x with
     | 'x' :: r => some r
     | _ => none⟩

/-- Witness for C10 at a concrete cipher and plaintext. -/
theorem C10_secret_codec_roundtrip_witness :
    decrypt_data tagCipher (encrypt_data tagCipher (pstr "hunter2")) =
      some (pstr "hunter2") :=
  (C10_secret_codec_roundtrip tagCipher (fun _ => rfl)).1 (pstr "hunter2")
    (by decide) (by decide)

/- ==================== C8: throttle classification ==================== -/

/-- C8 counterexample: an error text containing `"temporarily unavailable"`
with a space, as the claim spells the marker, is NOT classified as throttled
(the code's keyword is `"temporarily_unavailable"` with an underscore). -/
theorem C8_counterexample :
    is_throttle_error (some (pstr "temporarily unavailable")) = false := by
  decide

/-- C8 (amended): an error outcome is classified as throttled iff it is
nonempty and its lowercased text contains one of the six markers
`"too many requests"`, `"temporarily_unavailable"`, `"throttle"`,
`"rate limit"`, `"429"`, `"retry-after"`; in particular every error text
containing `"temporarily_unavailable"` (underscore form) or `"429"` is
classified as throttled. -/
theorem C8_throttle_classifier (m p q : PStr) :
    (is_throttle_error (some m) = true ↔
      m ≠ [] ∧ ∃ k ∈ throttleKeywords, k <:+: lowerStr m)
    ∧ is_throttle_error (some (p ++ pstr "temporarily_unavailable" ++ q)) = true
    ∧ is_throttle_error (some (p ++ pstr "429" ++ q)) = true := by
  have hiff : ∀ w : PStr, is_throttle_error (some w) = true ↔
      w ≠ [] ∧ ∃ k ∈ throttleKeywords, k <:+: lowerStr w := by
    intro w
    by_cases hw : w = []
    · simp [is_throttle_error, hw]
    · simp [is_throttle_error, hw, List.any_eq_true, containsSub_iff_infix]
  refine ⟨hiff m, ?_, ?_⟩
  · refine (hiff _).mpr ⟨by simp [pstr], pstr "temporarily_unavailable",
      by simp [throttleKeywords], ?_⟩
    refine ⟨lowerStr p, lowerStr q, ?_⟩
    have hkw : List.map Char.toLower (pstr "temporarily_unavailable") =
        pstr "temporarily_unavailable" := by decide
    simp only [lowerStr, List.map_append, hkw]
  · refine (hiff _).mpr ⟨by simp [pstr], pstr "429",
      by simp [throttleKeywords], ?_⟩
    refine ⟨lowerStr p, lowerStr q, ?_⟩
    have hkw : List.map Char.toLower (pstr "429") = pstr "429" := by decide
    simp only [lowerStr, List.map_append, hkw]

/-- Witness for C8's amended theorem at a concrete error text. -/
theorem C8_throttle_classifier_witness :
    is_throttle_error
      (some (pstr "AADSTS90033: " ++ pstr "temporarily_unavailable" ++
        pstr " retry later")) = true :=
  (C8_throttle_classifier [] (pstr "AADSTS90033: ")
    (pstr " retry later")).2.1

/- ==================== C7: scheduler lock acquisition ==================== -/

/-- C7: acquisition of the scheduler lock fails exactly when a lock is stored
whose parsed heartbeat is younger than the 120s TTL and whose owner differs
from the caller; in every other case the caller's own lock with a fresh
heartbeat is written and acquisition succeeds. -/
theorem C7_scheduler_lock_acquire (stored : Option SchedulerLock) (now : Int)
    (selfId : String) :
    ((try_acquire_scheduler_lock stored now selfId).1 = false ↔
      ∃ lock u, stored = some lock ∧ lock.updatedAt = some u ∧
        now - u < SCHEDULER_LOCK_TTL_SECONDS ∧ lock.owner ≠ selfId)
    ∧ ((try_acquire_scheduler_lock stored now selfId).1 = true →
        (try_acquire_scheduler_lock stored now selfId).2 =
          some ⟨selfId, some now⟩) := by
  rcases stored with - | ⟨own, upd⟩
  · exact ⟨by simp [try_acquire_scheduler_lock], fun _ => rfl⟩
  · rcases upd with - | u
    · refine ⟨⟨fun h => ?_, fun h => ?_⟩, fun _ => rfl⟩
      · exact absurd h (by simp [try_acquire_scheduler_lock])
      · obtain ⟨lk, v, hlk, hv, -, -⟩ := h
        cases hlk
        exact Option.noConfusion hv
    · have hstep : try_acquire_scheduler_lock (some ⟨own, some u⟩) now selfId =
          if now - u < SCHEDULER_LOCK_TTL_SECONDS ∧ own ≠ selfId then
            (false, some ⟨own, some u⟩)
          else (true, some ⟨selfId, some now⟩) := rfl
      rw [hstep]
      split_ifs with hc
      · refine ⟨⟨fun _ => ⟨⟨own, some u⟩, u, rfl, rfl, hc.1, hc.2⟩,
          fun _ => rfl⟩, fun h => ?_⟩
        simp at h
      · refine ⟨⟨fun h => ?_, fun h => ?_⟩, fun _ => rfl⟩
        · simp at h
        · obtain ⟨lk, v, hlk, hv, h1, h2⟩ := h
          cases hlk
          cases hv
          exact absurd ⟨h1, h2⟩ hc

/-- Witness for C7: a stale competing lock (heartbeat 200s old) is taken over
and overwritten with the caller's id and fresh heartbeat. -/
theorem C7_scheduler_lock_acquire_witness :
    (try_acquire_scheduler_lock (some ⟨"other", some 0⟩) 200 "me").2 =
      some ⟨"me", some 200⟩ :=
  (C7_scheduler_lock_acquire (some ⟨"other", some 0⟩) 200 "me").2 (by decide)

/- ==================== C9: inter-batch delay adaptation ==================== -/

/-- C9 counterexample: with the current delay at the configured baseline of 60
seconds (a value the clamp `delay ∈ [0,60]` allows) and one throttle hit in
the batch, the next delay is 10 — strictly SMALLER than the current value, so
the delay is not "increased (never decreased)" as claimed. -/
theorem C9_counterexample :
    adapt_delay 60 60 1 = 10 ∧ adapt_delay 60 60 1 < 60 := by
  constructor <;> decide

/-- C9 (amended): after a batch with at least one rate-limit-shaped error the
delay is set to `min(10, max(current,1) + min(3, hits))`: it never exceeds the
ceiling 10, never decreases while the current delay is at most the ceiling
(and strictly increases below it), but is clipped DOWN to the ceiling when the
current delay exceeds 10 (reachable, since the baseline may be as large as
60); with no such error and the current delay above the baseline, the delay
decreases toward the baseline and never below it, and otherwise it is
unchanged. -/
theorem C9_delay_adaptation (cur base : Int) (hits : Nat) :
    (0 < hits →
      adapt_delay cur base hits ≤ REFRESH_BACKOFF_MAX
      ∧ (cur ≤ REFRESH_BACKOFF_MAX → cur ≤ adapt_delay cur base hits)
      ∧ (cur < REFRESH_BACKOFF_MAX → cur < adapt_delay cur base hits)
      ∧ (REFRESH_BACKOFF_MAX < cur →
          adapt_delay cur base hits = REFRESH_BACKOFF_MAX))
    ∧ (hits = 0 → base < cur →
        base ≤ adapt_delay cur base hits ∧ adapt_delay cur base hits < cur)
    ∧ (hits = 0 → cur ≤ base → adapt_delay cur base hits = cur) := by
  unfold adapt_delay REFRESH_BACKOFF_MAX
  refine ⟨?_, ?_, ?_⟩
  · intro hpos
    rw [if_pos hpos]
    have h1 : (1 : Int) ≤ (hits : Int) := by exact_mod_cast hpos
    refine ⟨by omega, fun h => by omega, fun h => by omega, fun h => by omega⟩
  · intro h0 hgt
    rw [if_neg (by omega), if_pos hgt]
    omega
  · intro h0 hle
    rw [if_neg (by omega), if_neg (by omega)]

/-- Witness for C9's amended theorem: one throttle hit at current delay 5
(below the ceiling) raises the next delay. -/
theorem C9_delay_adaptation_witness :
    (5 : Int) < adapt_delay 5 5 1 :=
  ((C9_delay_adaptation 5 5 1).1 (by decide)).2.2.1 (by decide)

/- ==================== C4: refresh configuration clamping ==================== -/

/-- C4: for every stored configuration, candidate count and mode, the resolved
configuration satisfies workers ∈ [1,20], batch ∈ [1,100], delay ∈ [0,60];
and for a positive candidate count both workers and batch are at most the
candidate count, with the batch size never below the worker count. -/
theorem C4_config_clamping (delayReq workersReq batchReq total : Int)
    (mode : String) :
    (1 ≤ (resolve_refresh_config delayReq workersReq batchReq total mode).max_workers
      ∧ (resolve_refresh_config delayReq workersReq batchReq total mode).max_workers ≤ 20
      ∧ 1 ≤ (resolve_refresh_config delayReq workersReq batchReq total mode).batch_size
      ∧ (resolve_refresh_config delayReq workersReq batchReq total mode).batch_size ≤ 100
      ∧ 0 ≤ (resolve_refresh_config delayReq workersReq batchReq total mode).delay_seconds
      ∧ (resolve_refresh_config delayReq workersReq batchReq total mode).delay_seconds ≤ 60)
    ∧ (0 < total →
        (resolve_refresh_config delayReq workersReq batchReq total mode).max_workers ≤ total
        ∧ (resolve_refresh_config delayReq workersReq batchReq total mode).batch_size ≤ total
        ∧ (resolve_refresh_config delayReq workersReq batchReq total mode).max_workers ≤
            (resolve_refresh_config delayReq workersReq batchReq total mode).batch_size) := by
  unfold resolve_refresh_config
  split_ifs <;> (try dsimp only) <;> omega

/-- Witness for C4: requested batch size 1000 with 3 candidates resolves to
worker count ≤ 3 and batch size ≤ 3 with batch ≥ workers. -/
theorem C4_config_clamping_witness :
    (resolve_refresh_config 5 12 1000 3 "default").max_workers ≤ 3
    ∧ (resolve_refresh_config 5 12 1000 3 "default").batch_size ≤ 3
    ∧ (resolve_refresh_config 5 12 1000 3 "default").max_workers ≤
        (resolve_refresh_config 5 12 1000 3 "default").batch_size :=
  (C4_config_clamping 5 12 1000 3 "default").2 (by decide)

/- ==================== Lease manager lemmas ==================== -/

theorem pickMinId_mem {xs : List LAccount} {a : LAccount}
    (h : pickMinId xs = some a) : a ∈ xs := by
  induction xs with
  | nil => simp [pickMinId] at h
  | cons x rest ih =>
    simp only [pickMinId] at h
    rcases hr : pickMinId rest with - | b
    · rw [hr] at h
      dsimp only at h
      simp only [Option.some.injEq] at h
      simp [h]
    · rw [hr] at h
      dsimp only at h
      split_ifs at h
      · simp only [Option.some.injEq] at h
        simp [h]
      · simp only [Option.some.injEq] at h
        exact List.mem_cons_of_mem x (ih (by rw [hr, h]))

theorem pickMinId_le {xs : List LAccount} {a : LAccount}
    (h : pickMinId xs = some a) : ∀ b ∈ xs, a.id ≤ b.id := by
  induction xs generalizing a with
  | nil => simp [pickMinId] at h
  | cons x rest ih =>
    intro b hb
    simp only [pickMinId] at h
    rcases hr : pickMinId rest with - | c
    · rw [hr] at h
      dsimp only at h
      simp only [Option.some.injEq] at h
      subst h
      have hrest : rest = [] := by
        cases rest with
        | nil => rfl
        | cons y ys =>
          exfalso
          simp only [pickMinId] at hr
          rcases hz : pickMinId ys with - | z <;> rw [hz] at hr <;>
            dsimp only at hr
          · exact Option.noConfusion hr
          · split_ifs at hr
      subst hrest
      rcases List.mem_cons.mp hb with hbx | hbr
      · rw [hbx]
      · simp at hbr
    · rw [hr] at h
      dsimp only at h
      split_ifs at h with hle
      · simp only [Option.some.injEq] at h
        subst h
        rcases List.mem_cons.mp hb with hbx | hbr
        · rw [hbx]
        · exact le_trans hle (ih hr b hbr)
      · simp only [Option.some.injEq] at h
        subst h
        push_neg at hle
        rcases List.mem_cons.mp hb with hbx | hbr
        · rw [hbx]; exact le_of_lt hle
        · exact ih hr b hbr

theorem pickMinId_eq_none {xs : List LAccount} :
    pickMinId xs = none ↔ xs = [] := by
  cases xs with
  | nil => simp [pickMinId]
  | cons x rest =>
    simp only [pickMinId]
    rcases hz : pickMinId rest with - | b <;> dsimp only
    · simp
    · split_ifs <;> simp

theorem checkout_success_inv {s : LeaseStore} {gid : Option Int}
    {owner : Option String} {ttlReq now : Int} {lid lid' : String} {aid : Int}
    {em : String} {ex : Int}
    (h : (checkout s gid owner ttlReq now lid).1 =
      CheckoutResult.success lid' aid em ex) :
    ∃ a, pickMinId (eligibleAccounts s gid now) = some a ∧ a.id = aid ∧
      a.email = em ∧ lid' = lid ∧ ex = now + clampTtl ttlReq ∧
      (checkout s gid owner ttlReq now lid).2 =
        { s with leases := sweepExpired s.leases now ++
            [⟨lid, a.id, owner, now + clampTtl ttlReq⟩] } := by
  rcases hp : pickMinId (eligibleAccounts s gid now) with - | a
  · rw [show (checkout s gid owner ttlReq now lid).1 =
      CheckoutResult.noAvailable from by simp only [checkout, hp]] at h
    simp at h
  · rw [show (checkout s gid owner ttlReq now lid).1 =
      CheckoutResult.success lid a.id a.email (now + clampTtl ttlReq) from by
        simp only [checkout, hp]] at h
    obtain ⟨h1, h2, h3, h4⟩ := CheckoutResult.success.inj h
    exact ⟨a, rfl, h2, h3, h1.symm, h4.symm, by simp only [checkout, hp]⟩

theorem eligible_no_live_lease {s : LeaseStore} {gid : Option Int} {now : Int}
    {a : LAccount} (ha : a ∈ eligibleAccounts s gid now) :
    hasLease (sweepExpired s.leases now) a.id = false := by
  have hp := (List.mem_filter.mp ha).2
  simp only [Bool.and_eq_true, Bool.not_eq_true'] at hp
  exact hp.2

theorem hasLease_of_live {leases : List Lease} {A now : Int}
    (h : ∃ l ∈ leases, l.accountId = A ∧ now < l.expiresAt) :
    hasLease (sweepExpired leases now) A = true := by
  obtain ⟨l, hl, hacc, hexp⟩ := h
  unfold hasLease sweepExpired
  rw [List.any_eq_true]
  refine ⟨l, ?_, by simp [hacc]⟩
  rw [List.mem_filter]
  exact ⟨hl, by simp [hexp]⟩

theorem checkout_excludes_live (s : LeaseStore) (gid : Option Int)
    (owner : Option String) (ttlReq now : Int) (lid : String) (A : Int)
    (hlive : ∃ l ∈ s.leases, l.accountId = A ∧ now < l.expiresAt) :
    ∀ lid' aid em ex, (checkout s gid owner ttlReq now lid).1 =
      CheckoutResult.success lid' aid em ex → aid ≠ A := by
  intro lid' aid em ex h hEq
  obtain ⟨a, hp, haid, -, -, -, -⟩ := checkout_success_inv h
  have hnol := eligible_no_live_lease (pickMinId_mem hp)
  have hlA := hasLease_of_live hlive
  rw [haid, hEq] at hnol
  rw [hnol] at hlA
  simp at hlA

theorem checkout_preserves_unique (s : LeaseStore) (gid : Option Int)
    (owner : Option String) (ttlReq now : Int) (lid : String)
    (hinv : atMostOneLeasePerAccount s.leases) :
    atMostOneLeasePerAccount (checkout s gid owner ttlReq now lid).2.leases := by
  have hsub : ∀ aid : Int,
      ((sweepExpired s.leases now).filter
        (fun l => l.accountId = aid)).length ≤ 1 := by
    intro aid
    exact le_trans
      (List.Sublist.length_le
        (List.Sublist.filter _ (List.filter_sublist _)))
      (hinv aid)
  rcases hp : pickMinId (eligibleAccounts s gid now) with - | a
  · rw [show (checkout s gid owner ttlReq now lid).2 =
      { s with leases := sweepExpired s.leases now } from by
        simp only [checkout, hp]]
    exact hsub
  · rw [show (checkout s gid owner ttlReq now lid).2 =
      { s with leases := sweepExpired s.leases now ++
        [⟨lid, a.id, owner, now + clampTtl ttlReq⟩] } from by
        simp only [checkout, hp]]
    intro aid
    rw [List.filter_append, List.length_append]
    have hnol : hasLease (sweepExpired s.leases now) a.id = false :=
      eligible_no_live_lease (pickMinId_mem hp)
    by_cases haid : a.id = aid
    · have hzero : ((sweepExpired s.leases now).filter
          (fun l => l.accountId = aid)).length = 0 := by
        rw [List.length_eq_zero, List.filter_eq_nil_iff]
        intro l hl
        unfold hasLease at hnol
        have hall := List.any_eq_false.mp hnol l hl
        simp only [decide_eq_true_eq] at hall ⊢
        rw [← haid]
        exact hall
      rw [hzero]
      simp [haid]
    · have hone : (([(⟨lid, a.id, owner, now + clampTtl ttlReq⟩ : Lease)] :
          List Lease).filter (fun l => l.accountId = aid)).length = 0 := by
        simp [haid]
      rw [hone]
      simpa using hsub aid

theorem sweep_after_checkout {s : LeaseStore} {gid : Option Int}
    {owner : Option String} {ttlReq now : Int} {lid : String} {a : LAccount}
    (hp : pickMinId (eligibleAccounts s gid now) = some a) :
    sweepExpired ((checkout s gid owner ttlReq now lid).2.leases) now =
      sweepExpired s.leases now ++
        [⟨lid, a.id, owner, now + clampTtl ttlReq⟩] := by
  rw [show (checkout s gid owner ttlReq now lid).2 =
    { s with leases := sweepExpired s.leases now ++
      [⟨lid, a.id, owner, now + clampTtl ttlReq⟩] } from by
      simp only [checkout, hp]]
  unfold sweepExpired
  rw [List.filter_append]
  congr 1
  · rw [List.filter_filter]
    exact List.filter_congr (by intro l hl; simp)
  · have hlt : now < now + clampTtl ttlReq := by
      unfold clampTtl
      omega
    simp [hlt]

theorem checkout_keeps_accounts (s : LeaseStore) (gid : Option Int)
    (owner : Option String) (ttlReq now : Int) (lid : String) :
    (checkout s gid owner ttlReq now lid).2.accounts = s.accounts := by
  rcases hp : pickMinId (eligibleAccounts s gid now) with - | a <;>
    simp only [checkout, hp]

theorem eligible_after_checkout {s : LeaseStore} {gid : Option Int}
    {owner : Option String} {ttlReq now : Int} {lid : String} {a b : LAccount}
    (hp : pickMinId (eligibleAccounts s gid now) = some a)
    (hb : b ∈ eligibleAccounts (checkout s gid owner ttlReq now lid).2 gid now) :
    b ∈ eligibleAccounts s gid now ∧ b.id ≠ a.id := by
  unfold eligibleAccounts at hb ⊢
  rw [checkout_keeps_accounts] at hb
  rw [List.mem_filter] at hb ⊢
  obtain ⟨hmem, hcond⟩ := hb
  rw [sweep_after_checkout hp] at hcond
  simp only [Bool.and_eq_true, Bool.not_eq_true'] at hcond
  obtain ⟨hsg, hnl⟩ := hcond
  unfold hasLease at hnl
  rw [List.any_append] at hnl
  rw [Bool.or_eq_false_iff] at hnl
  obtain ⟨hn1, hn2⟩ := hnl
  simp only [List.any_cons, List.any_nil, Bool.or_false,
    decide_eq_false_iff_not] at hn2
  refine ⟨⟨hmem, ?_⟩, fun hEq => hn2 hEq.symm⟩
  simp only [Bool.and_eq_true, Bool.not_eq_true']
  exact ⟨hsg, hn1⟩

/- ==================== C2: lease expiry and complete ==================== -/

/-- The one-account store of the claim's scenario. -/
def c2Store : LeaseStore := ⟨[⟨1, "a@example.com", none, "active"⟩], []⟩

/-- The store right after the scenario's checkout with `ttl_seconds = 30` at
time 0 (the TTL is clamped up to 60, so the lease expires at 60). -/
def c2AfterCheckout : LeaseStore :=
  (checkout c2Store none (some "w") 30 0 "L1").2

/-- C2 counterexample: in the claim's scenario — checkout with
`ttl_seconds=30`, wait 31 seconds, call complete — complete returns Ok, not
NotFound (the lease row still exists and complete never checks expiry; the
requested 30s TTL was clamped up to 60s, so the lease is not even expired),
and the promised fresh checkout on the same account fails instead of
succeeding. -/
theorem C2_counterexample :
    (checkout c2Store none (some "w") 30 0 "L1").1 =
      CheckoutResult.success "L1" 1 "a@example.com" 60
    ∧ (checkout_complete c2AfterCheckout "L1").1 = CompleteResult.ok
    ∧ (checkout c2AfterCheckout none (some "w2") 900 31 "L2").1 =
        CheckoutResult.noAvailable := by
  refine ⟨by decide, by decide, by decide⟩

/-- The store after a later checkout (time 61 > expiry 60) has swept the
expired lease and re-leased the account. -/
def c2AfterExpirySweep : LeaseStore :=
  (checkout c2AfterCheckout none (some "w2") 900 61 "L2").2

/-- C2 (amended): `ttl_seconds=30` is clamped to the minimum of 60, so the
lease expires at 60 and is still live after a 31-second wait; complete does
not check expiry and returns Ok whenever the lease row still exists. Expiry is
lazy: once the expiry has passed, the next checkout sweeps the lease and
succeeds on the same account, and only after that sweep does complete on the
old lease report NotFound. -/
theorem C2_amended_lazy_expiry :
    (checkout c2Store none (some "w") 30 0 "L1").1 =
      CheckoutResult.success "L1" 1 "a@example.com" 60
    ∧ (checkout c2AfterCheckout none (some "w2") 900 61 "L2").1 =
        CheckoutResult.success "L2" 1 "a@example.com" 961
    ∧ (checkout_complete c2AfterExpirySweep "L1").1 = CompleteResult.notFound := by
  refine ⟨by decide, by decide, by decide⟩

/- ==================== C3: resume skip semantics ==================== -/

/-- C3: with resume enabled and a stored checkpoint for the scope that has
status `running`, a fresh (≤ 6h old, or absent) timestamp and last-processed
id `l`, exactly the accounts with id ≤ `l` are skipped (the kept list is the
ascending-id tail above `l`); a checkpoint that is stale (> 6h) or not in
status `running` is ignored and no account is skipped. Account ids are
positive (`AUTOINCREMENT` starts at 1), which also covers the code's
treatment of a zero `last_id` as "no resume". -/
theorem C3_resume_skip (accounts : List RAccount) (st : ResumeState)
    (now l : Int) (hids : ∀ a ∈ accounts, 1 ≤ a.id) :
    (st.status = "running" → st.lastId = some l →
      st.updatedAt ≠ some none →
      (∀ u, st.updatedAt = some (some u) →
        now - u ≤ REFRESH_RESUME_TTL_SECONDS) →
      apply_resume_skip accounts (resume_start_from (some st) now true) =
        accounts.filter (fun a => l < a.id))
    ∧ ((st.status ≠ "running" ∨
        ∃ u, st.updatedAt = some (some u) ∧
          now - u > REFRESH_RESUME_TTL_SECONDS) →
      apply_resume_skip accounts (resume_start_from (some st) now true) =
        accounts) := by
  constructor
  · intro hrun hlast hnp hfresh
    have hget : get_resume_state (some st) now = some st := by
      rcases hu : st.updatedAt with - | w
      · simp [get_resume_state, hrun, hu]
      · rcases w with - | u
        · exact absurd hu hnp
        · have hle := hfresh u hu
          simp only [get_resume_state, hu]
          rw [if_neg (by simp [hrun]), if_neg (by omega)]
    have hrsf : resume_start_from (some st) now true =
        (if l ≠ 0 then some l else none) := by
      simp only [resume_start_from, hget, hlast, if_true]
    rw [hrsf]
    by_cases hl : l = 0
    · subst hl
      rw [if_neg (by simp)]
      show accounts = _
      refine (List.filter_eq_self.mpr ?_).symm
      intro a ha
      have := hids a ha
      simp only [decide_eq_true_eq]
      omega
    · rw [if_pos hl]
      rfl
  · intro hbad
    have hget : get_resume_state (some st) now = none := by
      rcases hbad with hst | ⟨u, hu, hstale⟩
      · simp only [get_resume_state]
        rw [if_pos hst]
      · by_cases hst : st.status = "running"
        · simp only [get_resume_state, hu]
          rw [if_neg (by simp [hst]), if_pos (by omega)]
        · simp only [get_resume_state]
          rw [if_pos hst]
    simp only [resume_start_from, hget, if_true]
    rfl

/-- Witness for C3: a fresh running checkpoint with `last_id = 2` over
accounts 1..3 keeps exactly account 3. -/
theorem C3_resume_skip_witness :
    apply_resume_skip [⟨1, "a"⟩, ⟨2, "b"⟩, ⟨3, "c"⟩]
      (resume_start_from (some ⟨"running", some 2, some (some 0)⟩) 100 true) =
      [⟨3, "c"⟩] := by
  have h := (C3_resume_skip [⟨1, "a"⟩, ⟨2, "b"⟩, ⟨3, "c"⟩]
    ⟨"running", some 2, some (some 0)⟩ 100 2 (by decide)).1 rfl rfl
    (by decide) (by intro u hu; cases hu; decide)
  rw [h]
  decide

/- ==================== C1: lease mutual exclusion ==================== -/

/-- C1: checkout never hands out an account that has a live (unexpired) lease:
while such a lease exists no checkout returns that account; the per-account
lease-uniqueness invariant is preserved across checkout; and after a checkout
hands out an account, any further checkout before that lease's expiry cannot
return the same account. Checkout is modelled as one atomic state transition,
mirroring the single `BEGIN IMMEDIATE` transaction enclosing sweep, selection
and insertion in the source. -/
theorem C1_mutual_exclusion (s : LeaseStore) (gid : Option Int)
    (owner : Option String) (ttlReq now : Int) (lid : String) (A : Int)
    (hinv : atMostOneLeasePerAccount s.leases)
    (hlive : ∃ l ∈ s.leases, l.accountId = A ∧ now < l.expiresAt) :
    (∀ lid' aid em ex, (checkout s gid owner ttlReq now lid).1 =
        CheckoutResult.success lid' aid em ex → aid ≠ A)
    ∧ atMostOneLeasePerAccount (checkout s gid owner ttlReq now lid).2.leases
    ∧ (∀ lid' aid em ex, (checkout s gid owner ttlReq now lid).1 =
        CheckoutResult.success lid' aid em ex →
        ∀ now2 gid2 owner2 ttl2 lid2, now2 < ex →
        ∀ lid3 aid2 em2 ex2,
          (checkout (checkout s gid owner ttlReq now lid).2 gid2 owner2 ttl2
            now2 lid2).1 = CheckoutResult.success lid3 aid2 em2 ex2 →
          aid2 ≠ aid) := by
  refine ⟨checkout_excludes_live s gid owner ttlReq now lid A hlive,
    checkout_preserves_unique s gid owner ttlReq now lid hinv, ?_⟩
  intro lid' aid em ex h now2 gid2 owner2 ttl2 lid2 hlt lid3 aid2 em2 ex2 h2
  obtain ⟨a, hp, haid, -, -, hex, hstore⟩ := checkout_success_inv h
  have hlive2 : ∃ l ∈ (checkout s gid owner ttlReq now lid).2.leases,
      l.accountId = aid ∧ now2 < l.expiresAt := by
    refine ⟨⟨lid, a.id, owner, now + clampTtl ttlReq⟩, ?_, haid, ?_⟩
    · rw [hstore]; simp
    · rw [← hex]; exact hlt
  exact checkout_excludes_live _ gid2 owner2 ttl2 now2 lid2 aid hlive2
    lid3 aid2 em2 ex2 h2

/-- A two-account store with a live lease on account 1, for the C1 witness. -/
def c1Store : LeaseStore :=
  ⟨[⟨1, "a@x", none, "active"⟩, ⟨2, "b@x", none, "active"⟩],
   [⟨"L1", 1, none, 100⟩]⟩

/-- Witness for C1: with a live lease on account 1 at time 0, a checkout
preserves the at-most-one-lease-per-account invariant. -/
theorem C1_mutual_exclusion_witness :
    atMostOneLeasePerAccount (checkout c1Store none none 900 0 "L9").2.leases :=
  (C1_mutual_exclusion c1Store none none 900 0 "L9" 1
    (fun aid => le_trans (List.length_filter_le _ _) (by simp [c1Store]))
    ⟨⟨"L1", 1, none, 100⟩, by simp [c1Store], rfl, by decide⟩).2.1

/- ==================== C5: lowest-id selection ==================== -/

/-- C5: checkout fails with no-available-account exactly when no active,
group-matching, unleased account exists; a successful checkout returns the
lowest id among those candidates; and two successive checkouts against the
same store (same instant, no intervening release) return strictly ascending
account ids. -/
theorem C5_lowest_id_selection (s : LeaseStore) (gid : Option Int)
    (owner owner2 : Option String) (ttlReq ttl2 now : Int) (lid lid2 : String) :
    ((checkout s gid owner ttlReq now lid).1 = CheckoutResult.noAvailable ↔
      eligibleAccounts s gid now = [])
    ∧ (∀ lid' aid em ex, (checkout s gid owner ttlReq now lid).1 =
        CheckoutResult.success lid' aid em ex →
        (∃ a ∈ eligibleAccounts s gid now, a.id = aid) ∧
        ∀ b ∈ eligibleAccounts s gid now, aid ≤ b.id)
    ∧ (∀ lid' aid em ex lid3 aid2 em2 ex2,
        (checkout s gid owner ttlReq now lid).1 =
          CheckoutResult.success lid' aid em ex →
        (checkout (checkout s gid owner ttlReq now lid).2 gid owner2 ttl2 now
          lid2).1 = CheckoutResult.success lid3 aid2 em2 ex2 →
        aid < aid2) := by
  refine ⟨⟨?_, ?_⟩, ?_, ?_⟩
  · intro h
    rcases hp : pickMinId (eligibleAccounts s gid now) with - | a
    · exact pickMinId_eq_none.mp hp
    · rw [show (checkout s gid owner ttlReq now lid).1 =
        CheckoutResult.success lid a.id a.email (now + clampTtl ttlReq) from by
          simp only [checkout, hp]] at h
      simp at h
  · intro he
    have hp : pickMinId (eligibleAccounts s gid now) = none :=
      pickMinId_eq_none.mpr he
    simp only [checkout, hp]
  · intro lid' aid em ex h
    obtain ⟨a, hp, haid, -, -, -, -⟩ := checkout_success_inv h
    exact ⟨⟨a, pickMinId_mem hp, haid⟩,
      fun b hb => haid ▸ pickMinId_le hp b hb⟩
  · intro lid' aid em ex lid3 aid2 em2 ex2 h1 h2
    obtain ⟨a, hp, haid, -, -, -, -⟩ := checkout_success_inv h1
    obtain ⟨a2, hp2, haid2, -, -, -, -⟩ := checkout_success_inv h2
    obtain ⟨hel, hne⟩ := eligible_after_checkout hp (pickMinId_mem hp2)
    have hle : a.id ≤ a2.id := pickMinId_le hp a2 hel
    rw [← haid, ← haid2]
    omega

/-- A two-account store with no leases, for the C5 witness. -/
def c5Store : LeaseStore :=
  ⟨[⟨1, "a@x", none, "active"⟩, ⟨2, "b@x", none, "active"⟩], []⟩

/-- Witness for C5: on a fresh two-account store the first checkout takes
account 1 and the second takes a strictly larger id. -/
theorem C5_lowest_id_selection_witness :
    (checkout c5Store none none 900 0 "L1").1 =
      CheckoutResult.success "L1" 1 "a@x" 900 ∧ (1 : Int) < 2 :=
  ⟨by decide,
   (C5_lowest_id_selection c5Store none none none 900 900 0 "L1" "L2").2.2
     "L1" 1 "a@x" 900 "L2" 2 "b@x" 900 (by decide) (by decide)⟩

/- ==================== C6: worker-error containment ==================== -/

theorem process_batch_logs (rt : String) (total : Nat)
    (behave : RAccount → WorkerOutcome) :
    ∀ (xs : List RAccount) (st : RunState),
      (process_batch rt total behave xs st).1 =
        xs.map (worker_log rt behave) := by
  intro xs
  induction xs with
  | nil => intro st; rfl
  | cons x rest ih =>
    intro st
    simp only [process_batch, List.map_cons]
    rw [ih]
    rfl

theorem run_refresh_loop_logs (rt : String) (bsz : Nat) (base : Int)
    (total : Nat) (behave : RAccount → WorkerOutcome) :
    ∀ (n : Nat) (xs : List RAccount) (st : RunState), xs.length ≤ n →
      (run_refresh_loop rt bsz base total behave xs st).2.1 =
        xs.map (worker_log rt behave) := by
  intro n
  induction n with
  | zero =>
    intro xs st h
    rw [List.length_eq_zero.mp (Nat.le_zero.mp h)]
    simp [run_refresh_loop]
  | succ n ih =>
    intro xs st h
    cases xs with
    | nil => simp [run_refresh_loop]
    | cons x more =>
      rw [run_refresh_loop]
      dsimp only
      have hlen : ((x :: more).drop (max 1 bsz)).length ≤ n := by
        simp only [List.length_drop, List.length_cons] at h ⊢
        have h1 : 1 ≤ max 1 bsz := Nat.le_max_left _ _
        omega
      rw [process_batch_logs, ih _ _ hlen, ← List.map_append,
        List.take_append_drop]

/-- C6: for every account list, batch size and worker-outcome oracle —
including decryption failures caught inside the worker and arbitrary
exceptions escaping a worker — the run writes exactly one refresh-log row per
processed account (so no error aborts a batch or the run), the event stream
terminates with a `complete` event, and an account whose worker raised or
failed to decrypt is logged as failed with the corresponding error text. -/
theorem C6_worker_errors_contained (stored : Option ResumeState)
    (resume : Bool) (accounts0 : List RAccount)
    (behave : RAccount → WorkerOutcome) (rt : String) (ds : Int) (bsz : Nat)
    (now : Int) :
    (refresh_accounts_generator stored resume accounts0 behave rt ds bsz
        now).2 =
      (apply_resume_skip accounts0 (resume_start_from stored now resume)).map
        (worker_log rt behave)
    ∧ (∃ t sc fc fl,
        (refresh_accounts_generator stored resume accounts0 behave rt ds bsz
          now).1.getLast? = some (RefreshEvent.complete t sc fc fl))
    ∧ (∀ a m, behave a = WorkerOutcome.raised m →
        worker_log rt behave a =
          ⟨a.id, a.email, rt, "failed", some ("刷新异常: " ++ m)⟩)
    ∧ (∀ a m, behave a = WorkerOutcome.decryptFail m →
        worker_log rt behave a =
          ⟨a.id, a.email, rt, "failed", some ("解密 token 失败: " ++ m)⟩) := by
  refine ⟨?_, ?_, ?_, ?_⟩
  · unfold refresh_accounts_generator
    dsimp only
    by_cases h0 :
        (apply_resume_skip accounts0 (resume_start_from stored now
          resume)).length = 0
    · rw [if_pos h0, List.length_eq_zero.mp h0]
      rfl
    · rw [if_neg h0]
      exact run_refresh_loop_logs rt bsz ds _ behave _ _ _ (le_refl _)
  · unfold refresh_accounts_generator
    dsimp only
    by_cases h0 :
        (apply_resume_skip accounts0 (resume_start_from stored now
          resume)).length = 0
    · rw [if_pos h0]
      exact ⟨0, 0, 0, [], rfl⟩
    · rw [if_neg h0]
      exact ⟨_, _, _, _, List.getLast?_concat _⟩
  · intro a m hm
    unfold worker_log collect_future_result refresh_account_worker
    rw [hm]
    rfl
  · intro a m hm
    unfold worker_log collect_future_result refresh_account_worker
    rw [hm]
    rfl

/-- Witness for C6: a two-account run in which one worker raises and the other
fails to decrypt still logs both accounts as failed with their error texts. -/
theorem C6_worker_errors_contained_witness :
    (refresh_accounts_generator none false [⟨1, "a"⟩, ⟨2, "b"⟩]
      (fun a => if a.id = 1 then WorkerOutcome.raised "boom"
        else WorkerOutcome.decryptFail "bad") "manual" 5 2 0).2 =
      [⟨1, "a", "manual", "failed", some ("刷新异常: " ++ "boom")⟩,
       ⟨2, "b", "manual", "failed", some ("解密 token 失败: " ++ "bad")⟩] := by
  rw [(C6_worker_errors_contained none false [⟨1, "a"⟩, ⟨2, "b"⟩]
    (fun a => if a.id = 1 then WorkerOutcome.raised "boom"
      else WorkerOutcome.decryptFail "bad") "manual" 5 2 0).1]
  rfl

end Outlook
